import Mathlib

/-
  Verification development for modis_downloader.py (jgomezdans/fetchModisGranules).

  The Python source is shallowly embedded below.  Design choices of the embedding:

  * HTTP pages are modelled as their `splitlines()` result (`List String`); a
    `requests.get` call is modelled by `FetchOut`: a response carries its `ok`
    status and its lines, and a network-level connection failure is `connFail`.
  * Python exceptions are modelled by `Except PyErr`; each constructor of `PyErr`
    names the Python exception class raised on the corresponding path.
  * The output directory is modelled as the list of file names it contains
    (`List String`); `download_granules` threads this state and its effect is
    independent of its returned value (`dgResult` / `dgEffect`).
  * `list(set(...))` in `required_files` enumerates a Python set of strings in an
    order that depends on the interpreter's randomized string hashing, so the
    model takes the enumeration as an oracle `enum : List String → List String`;
    theorems about it assume only that `enum` returns a permutation of its input.
  * `executor.map` submits every task, all tasks run to completion (file-system
    effects of every transfer happen), and iterating the results re-raises the
    first exception in input order; `runTransfers`/`fetchPass` model exactly that.
    Distinct tasks write distinct file names (the candidate set is deduplicated
    by file name), so the sequential threading of the file-system state is
    faithful to the concurrent original.
  * `time.sleep` and log output have no observable effect in the model, with one
    exception: the f-string arguments of `LOG.debug` are evaluated eagerly, so
    `the_dates[0]` on an empty list raises `IndexError` and is modelled as such.
-/

/-! ### Character-list utilities modelling Python string primitives -/

/-- Prefix test on character lists (used for substring search and `endswith`). -/
def chPre : List Char → List Char → Bool
  | [], _ => true
  | _ :: _, [] => false
  | a :: as, b :: bs => decide (a = b) && chPre as bs

/-- `line.find(sub) >= 0` : does `sub` occur as a substring? -/
def listHasSub (sub : List Char) : List Char → Bool
  | [] => sub.isEmpty
  | c :: t => chPre sub (c :: t) || listHasSub sub t

/-- `line.find(sub) >= 0` on strings. -/
def containsS (line sub : String) : Bool :=
  listHasSub sub.toList line.toList

/-- Python `s.split(sep)` for a non-empty separator, fuelled recursion
    (fuel `|s| + 1` always suffices because every step consumes a character). -/
def pySplitFuel (sep : List Char) : Nat → List Char → List (List Char)
  | 0, s => [s]
  | _ + 1, [] => [[]]
  | fuel + 1, c :: t =>
    if chPre sep (c :: t) && !sep.isEmpty then
      [] :: pySplitFuel sep fuel (t.drop (sep.length - 1))
    else
      match pySplitFuel sep fuel t with
      | [] => [[c]]
      | h :: r => (c :: h) :: r

/-- Python `s.split(sep)` on strings. -/
def pySplitS (sep s : String) : List String :=
  (pySplitFuel sep.toList (s.toList.length + 1) s.toList).map (fun l => String.mk l)

/-- `url.split("/")[-1]` : the last path segment, the derived file name. -/
def lastSeg (u : String) : String :=
  (pySplitS "/" u).getLastD u

/-- `line.split("href=")[1].split('"')[1]` ; `none` models the `IndexError`
    raised when either index `[1]` does not exist. -/
def hrefTarget (line : String) : Option String :=
  match pySplitS "href=" line with
  | _ :: seg :: _ =>
    match pySplitS "\"" seg with
    | _ :: v :: _ => some v
    | _ => none
  | _ => none

/-- Python `s.strip("/")`. -/
def stripSlash (s : String) : String :=
  String.mk (((s.toList.dropWhile (fun c => decide (c = '/'))).reverse.dropWhile
      (fun c => decide (c = '/'))).reverse)

/-- Python `s.endswith(suf)`. -/
def endsW (s suf : String) : Bool :=
  chPre suf.toList.reverse s.toList.reverse

/-- ASCII upper-casing of one character (`str.upper` on the inputs used here). -/
def pyUpperChar (c : Char) : Char :=
  if decide ('a' ≤ c) && decide (c ≤ 'z') then Char.ofNat (c.toNat - 32) else c

/-- Python `s.upper()` (ASCII; product and platform ids are ASCII). -/
def pyUpper (s : String) : String :=
  String.mk (s.toList.map pyUpperChar)

/-- Strict lexicographic-or-equal comparison by code point, Python string `<=`. -/
def chLe : List Char → List Char → Bool
  | [], _ => true
  | _ :: _, [] => false
  | a :: as, b :: bs => decide (a < b) || (decide (a = b) && chLe as bs)

/-- Insert into a sorted list keeping stability (Python `list.sort` is stable). -/
def insSorted (x : String) : List String → List String
  | [] => [x]
  | y :: ys => if chLe x.toList y.toList then x :: y :: ys else y :: insSorted x ys

/-- Python `list.sort()` on strings (stable, by code point). -/
def pySort : List String → List String
  | [] => []
  | x :: xs => insSorted x (pySort xs)

/-- First-occurrence deduplication (the key set of `dict(zip(flist, url_list))`). -/
def dedupFirstAux (seen : List String) : List String → List String
  | [] => []
  | x :: xs => if x ∈ seen then dedupFirstAux seen xs else x :: dedupFirstAux (x :: seen) xs

/-- Distinct elements of a list, first occurrence first. -/
def dedupFirst (l : List String) : List String :=
  dedupFirstAux [] l

/-- `os.path.join(d, f)` for the shapes used here. -/
def pyJoin (d f : String) : String :=
  if d = "" then f else if endsW d "/" then d ++ f else d ++ "/" ++ f

/-- Flatten a list of granule lists (`[g for granule in the_granules for g in granule]`). -/
def flatS : List (List String) → List String
  | [] => []
  | x :: xs => x ++ flatS xs

/-! ### Dates: `datetime.datetime.strptime(s, "%Y.%m.%d")` and comparison -/

/-- A parsed calendar date; `strptime` yields midnight so the claims' date
    comparisons are at day granularity. -/
structure PyDate where
  y : Nat
  m : Nat
  d : Nat
deriving DecidableEq

/-- `datetime` comparison at day granularity (lexicographic). -/
def dateLe (a b : PyDate) : Bool :=
  decide (a.y < b.y) ||
    (decide (a.y = b.y) &&
      (decide (a.m < b.m) || (decide (a.m = b.m) && decide (a.d ≤ b.d))))

/-- Numeric value of a digit character. -/
def digitVal (c : Char) : Nat := c.toNat - 48

/-- CPython `%Y`: exactly four digits. -/
def parse4Digits : List Char → Option (Nat × List Char)
  | a :: b :: c :: d :: r =>
    if a.isDigit && b.isDigit && c.isDigit && d.isDigit then
      some (1000 * digitVal a + 100 * digitVal b + 10 * digitVal c + digitVal d, r)
    else none
  | _ => none

/-- CPython `%m`: the regex `1[0-2]|0[1-9]|[1-9]`, leftmost alternative first. -/
def parseMonth : List Char → Option (Nat × List Char)
  | a :: b :: r =>
    if decide (a = '1') && (decide (b = '0') || decide (b = '1') || decide (b = '2')) then
      some (10 + digitVal b, r)
    else if decide (a = '0') && b.isDigit && decide (b ≠ '0') then some (digitVal b, r)
    else if a.isDigit && decide (a ≠ '0') then some (digitVal a, b :: r)
    else none
  | [a] => if a.isDigit && decide (a ≠ '0') then some (digitVal a, []) else none
  | [] => none

/-- CPython `%d`: the regex `3[01]|[12]\d|0[1-9]|[1-9]`, leftmost first. -/
def parseDay : List Char → Option (Nat × List Char)
  | a :: b :: r =>
    if decide (a = '3') && (decide (b = '0') || decide (b = '1')) then
      some (30 + digitVal b, r)
    else if (decide (a = '1') || decide (a = '2')) && b.isDigit then
      some (10 * digitVal a + digitVal b, r)
    else if decide (a = '0') && b.isDigit && decide (b ≠ '0') then some (digitVal b, r)
    else if a.isDigit && decide (a ≠ '0') then some (digitVal a, b :: r)
    else none
  | [a] => if a.isDigit && decide (a ≠ '0') then some (digitVal a, []) else none
  | [] => none

/-- Gregorian leap year, as `datetime` checks it. -/
def isLeapYear (y : Nat) : Bool :=
  (decide (y % 4 = 0) && decide (y % 100 ≠ 0)) || decide (y % 400 = 0)

/-- Days in a month, as `datetime` validates the day. -/
def daysInMonth (y m : Nat) : Nat :=
  if m = 2 then (if isLeapYear y then 29 else 28)
  else if m = 4 || m = 6 || m = 9 || m = 11 then 30
  else 31

/-- `datetime.datetime.strptime(s, "%Y.%m.%d")`; `none` models `ValueError`
    (no match, trailing characters, or an invalid calendar date). -/
def strptimeYmd (s : String) : Option PyDate :=
  match parse4Digits s.toList with
  | some (y, '.' :: r2) =>
    match parseMonth r2 with
    | some (m, '.' :: r4) =>
      match parseDay r4 with
      | some (d, []) =>
        if decide (1 ≤ y) && decide (d ≤ daysInMonth y m) then some ⟨y, m, d⟩ else none
      | _ => none
    | _ => none
  | _ => none

/-! ### Exceptions, responses and the environment -/

/-- Python exception classes raised by the embedded paths. -/
inductive PyErr where
  | webError
  | indexError
  | valueError
  | attributeError
  | ioError
  | keyError
  | connectionError
  | assertionError
deriving DecidableEq

deriving instance DecidableEq for Except

/-- Outcome of `requests.get(url)`: a response (status plus body lines) or a
    network-level `ConnectionError`. -/
inductive FetchOut where
  | resp (ok : Bool) (lines : List String)
  | connFail
deriving DecidableEq

/-- Outcome of a single authenticated file transfer in `download_granules`:
    non-success status (`not r.ok`), missing `content-length` header, an
    exception raised while streaming the body, or full success. -/
inductive TransferOut where
  | notOk
  | noLength
  | midFail
  | ok
deriving DecidableEq

/-- The `tiles` argument: a bare string or a list of tile identifiers. -/
inductive TilesArg where
  | single (t : String)
  | list (ts : List String)
deriving DecidableEq

/-- The external world of one orchestrator run: index/listing pages by URL,
    per-URL transfer outcome, and the initial `os.listdir(output_dir)`. -/
structure Env where
  pages : String → FetchOut
  transfer : String → TransferOut
  dirFiles : List String

/-! ### `get_available_dates` (modis_downloader.py lines 82-105) -/

/-- Body of the scan loop for one line: lines with the `[DIR]` marker and an
    `href` have their link target extracted, stripped of slashes, parsed as a
    `YYYY.MM.DD` date, and kept when inside the window. -/
def gadEntry (url : String) (s e : PyDate) (line : String) : Except PyErr (Option String) :=
  if containsS line "[DIR]" && containsS line "href" then
    match hrefTarget line with
    | none => .error .indexError
    | some h =>
      match strptimeYmd (stripSlash h) with
      | none => .error .valueError
      | some dt =>
        if dateLe s dt && dateLe dt e then .ok (some (url ++ "/" ++ stripSlash h))
        else .ok none
  else .ok none

/-- The scan loop over the remaining lines, first exception wins. -/
def gadLoop (url : String) (s e : PyDate) : List String → Except PyErr (List String)
  | [] => .ok []
  | line :: rest =>
    match gadEntry url s e line with
    | .error pe => .error pe
    | .ok o =>
      match gadLoop url s e rest with
      | .error pe => .error pe
      | .ok tail =>
        match o with
        | some x => .ok (x :: tail)
        | none => .ok tail

/-- `get_available_dates`: fetch the index page, raise `WebError` when the
    response is not ok, then scan `html.splitlines()[19:]`. -/
def get_available_dates (f : FetchOut) (url : String) (s e : PyDate) : Except PyErr (List String) :=
  match f with
  | .connFail => .error .connectionError
  | .resp ok lines => if ok then gadLoop url s e (lines.drop 19) else .error .webError

/-! ### `download_granule_list` (lines 108-132) -/

/-- `if not isinstance(tiles, list): tiles = [tiles]`. -/
def normTiles : TilesArg → List String
  | .single t => [t]
  | .list ts => ts

/-- The per-(line, tile) condition of the granule scan. -/
def tileHit (line t : String) : Bool :=
  containsS line t && !(containsS line ".xml") && !(containsS line "BROWSE")

/-- Inner loop `for tile in tiles` for a fixed line; every hit appends one URL. -/
def dglTiles (url line : String) : List String → Except PyErr (List String)
  | [] => .ok []
  | t :: ts =>
    if tileHit line t then
      match hrefTarget line with
      | none => .error .indexError
      | some f =>
        match dglTiles url line ts with
        | .error pe => .error pe
        | .ok r => .ok ((url ++ "/" ++ f) :: r)
    else dglTiles url line ts

/-- Outer loop `for line in r.text.splitlines()`. -/
def dglLines (url : String) (ts : List String) : List String → Except PyErr (List String)
  | [] => .ok []
  | line :: rest =>
    match dglTiles url line ts with
    | .error pe => .error pe
    | .ok h =>
      match dglLines url ts rest with
      | .error pe => .error pe
      | .ok r => .ok (h ++ r)

/-- `download_granule_list`.  The `except requests.execeptions.ConnectionError`
    clause misspells `exceptions`; evaluating that attribute while handling a
    `ConnectionError` raises `AttributeError`, so a connection failure never
    reaches `time.sleep(240)` and the loop never retries.  A response is used
    whatever its status (there is no `r.ok` check here). -/
def download_granule_list (f : FetchOut) (url : String) (tiles : TilesArg) : Except PyErr (List String) :=
  match f with
  | .connFail => .error .attributeError
  | .resp _ lines => dglLines url (normTiles tiles) lines

/-! ### `download_granules` (lines 135-153) -/

/-- Add a file name to the directory (writing creates it; rewriting keeps it). -/
def fsAdd (fs : List String) (n : String) : List String :=
  if n ∈ fs then fs else fs ++ [n]

/-- Remove a file name from the directory (`os.rename` removes the source). -/
def fsDel (fs : List String) (n : String) : List String :=
  fs.filter (fun x => decide (x ≠ n))

/-- Return value / raised exception of one transfer: `IOError` on a bad status,
    `KeyError` on a missing `content-length`, the streaming exception mid-body,
    else the final path `os.path.join(output_dir, fname)`. -/
def dgResult (output_dir : String) (t : TransferOut) (url : String) : Except PyErr String :=
  match t with
  | .notOk => .error .ioError
  | .noLength => .error .keyError
  | .midFail => .error .connectionError
  | .ok => .ok (pyJoin output_dir (lastSeg url))

/-- Directory effect of one transfer.  The bad-status and missing-header paths
    raise before the `.partial` file is opened; a mid-stream failure leaves the
    `.partial` file behind (there is no cleanup handler in the source); success
    writes `.partial` and renames it to the final name. -/
def dgEffect (t : TransferOut) (url : String) (fs : List String) : List String :=
  match t with
  | .notOk => fs
  | .noLength => fs
  | .midFail => fsAdd fs (lastSeg url ++ ".partial")
  | .ok => fsAdd (fsDel (fsAdd fs (lastSeg url ++ ".partial")) (lastSeg url ++ ".partial")) (lastSeg url)

/-- `download_granules`: result and directory effect. -/
def download_granules (output_dir : String) (t : TransferOut) (url : String) (fs : List String) :
    Except PyErr String × List String :=
  (dgResult output_dir t url, dgEffect t url fs)

/-! ### `required_files` (lines 156-171) -/

/-- `[fich for fich in os.listdir(output_dir) if fich.endswith(".hdf")]`. -/
def hdfInventory (dir_files : List String) : List String :=
  dir_files.filter (fun f => endsW f ".hdf")

/-- The residual name set `set(flist).difference(hdf_files_present)`, listed in
    first-occurrence order before the enumeration oracle is applied. -/
def rfKeys (url_list dir_files : List String) : List String :=
  (dedupFirst (url_list.map lastSeg)).filter (fun k => decide (k ∉ hdfInventory dir_files))

/-- `dict(zip(flist, url_list))[k]`: later pairs overwrite earlier ones, so the
    value is the last URL whose derived file name is `k`. -/
def lastUrlOf (url_list : List String) (k : String) : String :=
  (url_list.reverse.find? (fun u => decide (lastSeg u = k))).getD ""

/-- `required_files`; `enum` is the iteration order of the Python set
    (`list(flist.difference(hdf_files_present))`), a permutation oracle. -/
def required_files (enum : List String → List String) (url_list dir_files : List String) :
    List String :=
  (enum (rfKeys url_list dir_files)).map (lastUrlOf url_list)

/-! ### `get_modis_data` (lines 174-283) -/

/-- All transfers of one `executor.map` pass, threading the directory state;
    the result list is in submission order. -/
def runTransfers (output_dir : String) (tr : String → TransferOut) :
    List String → List String → List (Except PyErr String) × List String
  | fs, [] => ([], fs)
  | fs, u :: us =>
    let step := runTransfers output_dir tr (dgEffect (tr u) u fs) us
    (dgResult output_dir (tr u) u :: step.1, step.2)

/-- The first exception re-raised when iterating `executor.map` results. -/
def firstErr (rs : List (Except PyErr String)) : Option PyErr :=
  rs.findSome? (fun r => match r with | .error pe => some pe | .ok _ => none)

/-- One download pass: every submitted task runs (all directory effects occur),
    then iterating the results re-raises the first exception, else yields the
    collected paths. -/
def fetchPass (output_dir : String) (tr : String → TransferOut) (fs : List String)
    (gr : List String) : Except PyErr (List String) × List String :=
  match firstErr (runTransfers output_dir tr fs gr).1 with
  | some pe => (.error pe, (runTransfers output_dir tr fs gr).2)
  | none => (.ok ((runTransfers output_dir tr fs gr).1.filterMap (fun r => r.toOption)),
      (runTransfers output_dir tr fs gr).2)

/-- Base archive URL of the source. -/
def BASE_URL : String := "http://e4ftl01.cr.usgs.gov/"

/-- `executor.map(download_granule_patch, the_dates)`: one granule list per
    date, first exception in input order wins. -/
def listGranules (pages : String → FetchOut) (tiles : TilesArg) :
    List String → Except PyErr (List (List String))
  | [] => .ok []
  | d :: ds =>
    match download_granule_list (pages d) d tiles with
    | .error pe => .error pe
    | .ok g =>
      match listGranules pages tiles ds with
      | .error pe => .error pe
      | .ok r => .ok (g :: r)

/-- Date discovery, the eager debug logging, per-date listing and the sort.
    `LOG.debug(f"First:{str(the_dates[0]):s}")` evaluates `the_dates[0]`
    before logging, so an empty date list raises `IndexError` here. -/
def discoverGranules (env : Env) (platform product : String) (tiles : TilesArg)
    (s e : PyDate) : Except PyErr (List String) :=
  match get_available_dates (env.pages (BASE_URL ++ platform ++ "/" ++ product))
      (BASE_URL ++ platform ++ "/" ++ product) s e with
  | .error pe => .error pe
  | .ok the_dates =>
    match the_dates with
    | [] => .error .indexError
    | _ :: _ =>
      match listGranules env.pages tiles the_dates with
      | .error pe => .error pe
      | .ok nested => .ok (pySort (flatS nested))

/-- Inventory filtering, the early empty return, the single download pass of
    the `while not have_all_files` loop (its else-branch raises, so the loop
    body runs at most once), and the completeness check. -/
def downloadStage (enum : List String → List String) (tr : String → TransferOut)
    (output_dir : String) (fs0 : List String) (gr : List String) :
    Except PyErr (List String) × List String :=
  match required_files enum gr fs0 with
  | [] => (.ok [], fs0)
  | _ :: _ =>
    match (fetchPass output_dir tr fs0 (required_files enum gr fs0)).1 with
    | .error pe => (.error pe, (fetchPass output_dir tr fs0 (required_files enum gr fs0)).2)
    | .ok dload =>
      if ((required_files enum gr fs0).map lastSeg).all
          (fun f => decide (f ∈ dload.map lastSeg)) then
        (.ok dload, (fetchPass output_dir tr fs0 (required_files enum gr fs0)).2)
      else (.error .ioError, (fetchPass output_dir tr fs0 (required_files enum gr fs0)).2)

/-- `get_modis_data`: platform assertion, discovery, inventory filter, one
    download pass with verification.  The pair is (returned value or raised
    exception, final contents of the output directory). -/
def get_modis_data (enum : List String → List String) (env : Env) (platform product : String)
    (tiles : TilesArg) (output_dir : String) (s e : PyDate) :
    Except PyErr (List String) × List String :=
  if pyUpper platform ∈ (["MOLA", "MOLT", "MOTA"] : List String) then
    match discoverGranules env platform product tiles s e with
    | .error pe => (.error pe, env.dirFiles)
    | .ok gr => downloadStage enum env.transfer output_dir env.dirFiles gr
  else (.error .assertionError, env.dirFiles)

/-! ### `main` (lines 285-348): product validation and platform derivation -/

/-- Three consecutive digit characters at the head. -/
def threeDigitsAt : List Char → Bool
  | a :: b :: c :: _ => a.isDigit && b.isDigit && c.isDigit
  | _ => false

/-- Some position (including the head) starts three digits. -/
def suffixHas3 : List Char → Bool
  | [] => false
  | a :: t => threeDigitsAt (a :: t) || suffixHas3 t

/-- `re.match(r"M[CYD]D\d\dA.+?(?=.)\d\d\d", s)` succeeds (the source pattern is
    `M[CYO]D\d\dA.+?(?=.)\d\d\d`, anchored at the start only): head `M[CYO]D`,
    two digits, `A`, then at least one consumed character followed by three
    digits somewhere (the lazy `.+?` plus the one-character lookahead). -/
def matchesProductRegex (s : String) : Bool :=
  match s.toList with
  | 'M' :: c2 :: 'D' :: d1 :: d2 :: 'A' :: rest =>
    (decide (c2 = 'C') || decide (c2 = 'Y') || decide (c2 = 'O')) &&
      d1.isDigit && d2.isDigit &&
      (match rest with
       | [] => false
       | _ :: t => suffixHas3 t)
  | _ => false

/-- The platform derivation of `main`: the regex is checked against the
    upper-cased product, but the `MOD`/`MYD`/`MCD` tests are substring searches
    (`options.product.find(...) >= 0`) on the product as given, in that order. -/
def derive_platform (productOpt : String) : Except PyErr String :=
  if matchesProductRegex (pyUpper productOpt) then
    if containsS productOpt "MOD" then .ok "MOLT"
    else if containsS productOpt "MYD" then .ok "MOLA"
    else if containsS productOpt "MCD" then .ok "MOTA"
    else .error .valueError
  else .error .valueError

/-- `main` up to the `get_modis_data` call: the download step (all network
    activity) runs only when platform derivation succeeded. -/
def main_flow (productOpt : String) (get_data : String → Except PyErr (List String)) :
    Except PyErr (List String) :=
  match derive_platform productOpt with
  | .error pe => .error pe
  | .ok platform => get_data platform

/-! ### Specification-side definitions (for refinement comparison) -/

/-- The DateRangeScanner algorithm as the spec words it: a remaining line with
    the directory marker and an href contributes the entry `baseUrl + "/" +
    dateString` exactly when its extracted link text parses as a date inside
    the window. -/
def gadSpecLine (url : String) (s e : PyDate) (line : String) : Option String :=
  if containsS line "[DIR]" && containsS line "href" then
    match (hrefTarget line).map stripSlash with
    | some ds =>
      match strptimeYmd ds with
      | some dt => if dateLe s dt && dateLe dt e then some (url ++ "/" ++ ds) else none
      | none => none
    | none => none
  else none

/-- The spec's date scan: skip the first 19 lines, emit per line in listing
    order. -/
def scanSpec (url : String) (s e : PyDate) (lines : List String) : List String :=
  (lines.drop 19).filterMap (gadSpecLine url s e)

/-- The spec's granule listing: for every line, one linked file per requested
    tile whose identifier occurs in the line, provided the line references
    neither an XML sidecar nor a browse image. -/
def dglSpec (url : String) (ts lines : List String) : List String :=
  flatS (lines.map (fun line =>
    match hrefTarget line with
    | some f => (ts.filter (fun t => tileHit line t)).map (fun _ => url ++ "/" ++ f)
    | none => []))

/-! ### Concrete scenario material for witnesses and counterexamples -/

/-- A concrete valid set-enumeration oracle (the identity enumeration). -/
def enumId : List String → List String := fun l => l

/-- The demo product. -/
def demoProduct : String := "MOD13A3.006"

/-- The product index URL the orchestrator computes for the demo request. -/
def demoBase : String := "http://e4ftl01.cr.usgs.gov/MOLT/MOD13A3.006"

/-- A demo index page: 19 boilerplate lines, then one directory row. -/
def demoIndexLines : List String :=
  (List.replicate 19 "header") ++
    ["<tr><td>[DIR]</td><td><a href=\"2018.01.01/\">2018.01.01/</a></td></tr>"]

/-- The date sub-URL emitted for the demo index page. -/
def demoDateUrl : String := demoBase ++ "/2018.01.01"

/-- A demo date page with a single granule row for the given file name. -/
def demoDatePage (fname : String) : List String :=
  ["<tr><td><a href=\"" ++ fname ++ "\">" ++ fname ++ "</a></td></tr>"]

/-- A demo granule file name carrying the target extension. -/
def demoHdf : String := "MOD13A3.A2018001.h17v04.006.hdf"

/-- A demo granule file name without the target extension. -/
def demoTxt : String := "MOD13A3.A2018001.h17v04.txt"

/-- Demo environment: the index page, one date page, a uniform transfer
    outcome, and the given initial directory contents. -/
def mkDemoEnv (fname : String) (t : TransferOut) (dfs : List String) : Env :=
  { pages := fun u =>
      if u = demoBase then .resp true demoIndexLines
      else if u = demoDateUrl then .resp true (demoDatePage fname)
      else .connFail,
    transfer := fun _ => t,
    dirFiles := dfs }

/-- 2018-01-01. -/
def d180101 : PyDate := ⟨2018, 1, 1⟩

/-- 2018-02-01. -/
def d180201 : PyDate := ⟨2018, 2, 1⟩

/-- 2020-01-01. -/
def d200101 : PyDate := ⟨2020, 1, 1⟩

/-- 2020-02-01. -/
def d200201 : PyDate := ⟨2020, 2, 1⟩

/-- Five candidate URLs with distinct `.hdf` file names. -/
def gr5 : List String := ["u/a.hdf", "u/b.hdf", "u/c.hdf", "u/d.hdf", "u/e.hdf"]

/-- Transfer oracle failing exactly the middle candidate with a bad status. -/
def tr5 : String → TransferOut := fun u => if u = "u/c.hdf" then .notOk else .ok


/-! ### Helper lemmas: directory operations and suffixes -/

lemma mem_fsAdd_self (fs : List String) (n : String) : n ∈ fsAdd fs n := by
  unfold fsAdd
  split
  · assumption
  · exact List.mem_append_right _ (List.mem_singleton.mpr rfl)

lemma mem_fsAdd_of_mem {fs : List String} {m : String} (n : String) (h : m ∈ fs) :
    m ∈ fsAdd fs n := by
  unfold fsAdd
  split
  · exact h
  · exact List.mem_append_left _ h

lemma mem_of_mem_fsAdd {fs : List String} {m n : String} (h : m ∈ fsAdd fs n) :
    m ∈ fs ∨ m = n := by
  unfold fsAdd at h
  split at h
  · exact Or.inl h
  · rcases List.mem_append.mp h with h1 | h1
    · exact Or.inl h1
    · exact Or.inr (List.mem_singleton.mp h1)

lemma mem_fsDel {fs : List String} {m n : String} (h : m ∈ fs) (hne : m ≠ n) :
    m ∈ fsDel fs n :=
  List.mem_filter.mpr ⟨h, by simpa using hne⟩

lemma mem_of_mem_fsDel {fs : List String} {m n : String} (h : m ∈ fsDel fs n) :
    m ∈ fs ∧ m ≠ n := by
  have h2 := List.mem_filter.mp h
  exact ⟨h2.1, by simpa using h2.2⟩

lemma chPre_self_append (a b : List Char) : chPre a (a ++ b) = true := by
  induction a with
  | nil => rfl
  | cons c t ih => simp [chPre, ih]

lemma endsW_append (s suf : String) : endsW (s ++ suf) suf = true := by
  unfold endsW
  rw [show (s ++ suf).toList = s.toList ++ suf.toList from String.data_append s suf,
    List.reverse_append]
  exact chPre_self_append _ _

lemma endsW_hdf_no_sidecar {b : String} (h : endsW b ".hdf" = true) :
    endsW b ".partial" = false := by
  unfold endsW at h ⊢
  have e1 : (".hdf" : String).toList.reverse = ['f', 'd', 'h', '.'] := rfl
  have e2 : (".partial" : String).toList.reverse = ['l', 'a', 'i', 't', 'r', 'a', 'p', '.'] := rfl
  rw [e1] at h
  rw [e2]
  cases hb : b.toList.reverse with
  | nil => rw [hb] at h; simp [chPre] at h
  | cons c r =>
    rw [hb] at h
    simp only [chPre, Bool.and_eq_true, decide_eq_true_eq] at h
    rw [← h.1]
    simp [chPre]

lemma ne_of_endsW_hdf {b x : String} (h : endsW b ".hdf" = true) : b ≠ x ++ ".partial" := by
  intro he
  have := endsW_append x ".partial"
  rw [← he] at this
  rw [endsW_hdf_no_sidecar h] at this
  exact Bool.false_ne_true this

/-! ### Helper lemmas: deduplication -/

lemma mem_dedupFirstAux {a : String} :
    ∀ {l seen : List String}, a ∈ dedupFirstAux seen l ↔ a ∈ l ∧ a ∉ seen := by
  intro l
  induction l with
  | nil => intro seen; simp [dedupFirstAux]
  | cons x xs ih =>
    intro seen
    unfold dedupFirstAux
    split
    · rw [ih]
      constructor
      · rintro ⟨h1, h2⟩
        exact ⟨List.mem_cons_of_mem _ h1, h2⟩
      · rintro ⟨h1, h2⟩
        rcases List.mem_cons.mp h1 with h3 | h3
        · subst h3; exact absurd (by assumption) h2
        · exact ⟨h3, h2⟩
    · rw [List.mem_cons, ih]
      constructor
      · rintro (h1 | ⟨h1, h2⟩)
        · subst h1; exact ⟨List.mem_cons_self _ _, by assumption⟩
        · exact ⟨List.mem_cons_of_mem _ h1, fun hc => h2 (List.mem_cons_of_mem _ hc)⟩
      · rintro ⟨h1, h2⟩
        rcases List.mem_cons.mp h1 with h3 | h3
        · exact Or.inl h3
        · by_cases hax : a = x
          · exact Or.inl hax
          · exact Or.inr ⟨h3, fun hc => by
              rcases List.mem_cons.mp hc with h4 | h4
              · exact hax h4
              · exact h2 h4⟩

lemma mem_dedupFirst {a : String} {l : List String} : a ∈ dedupFirst l ↔ a ∈ l := by
  unfold dedupFirst
  rw [mem_dedupFirstAux]
  simp

lemma dedupFirstAux_of_nodup :
    ∀ {l seen : List String}, l.Nodup → (∀ x ∈ l, x ∉ seen) → dedupFirstAux seen l = l := by
  intro l
  induction l with
  | nil => intro seen _ _; rfl
  | cons x xs ih =>
    intro seen hnd hsn
    unfold dedupFirstAux
    rw [if_neg (hsn x (List.mem_cons_self _ _))]
    rw [ih (List.nodup_cons.mp hnd).2]
    intro y hy
    intro hc
    rcases List.mem_cons.mp hc with h1 | h1
    · exact (List.nodup_cons.mp hnd).1 (h1 ▸ hy)
    · exact hsn y (List.mem_cons_of_mem _ hy) h1

lemma dedupFirst_of_nodup {l : List String} (h : l.Nodup) : dedupFirst l = l :=
  dedupFirstAux_of_nodup h (by intro x _; exact List.not_mem_nil x)

lemma nodup_dedupFirstAux : ∀ {l seen : List String}, (dedupFirstAux seen l).Nodup := by
  intro l
  induction l with
  | nil => intro seen; exact List.nodup_nil
  | cons x xs ih =>
    intro seen
    unfold dedupFirstAux
    split
    · exact ih
    · refine List.nodup_cons.mpr ⟨fun hc => ?_, ih⟩
      exact (mem_dedupFirstAux.mp hc).2 (List.mem_cons_self _ _)

lemma nodup_dedupFirst {l : List String} : (dedupFirst l).Nodup :=
  nodup_dedupFirstAux

/-! ### Helper lemmas: sorting is a permutation -/

lemma insSorted_perm (x : String) (l : List String) : (insSorted x l).Perm (x :: l) := by
  induction l with
  | nil => exact List.Perm.refl _
  | cons y ys ih =>
    unfold insSorted
    split
    · exact List.Perm.refl _
    · exact ((ih.cons y).trans (List.Perm.swap x y ys))

lemma pySort_perm (l : List String) : (pySort l).Perm l := by
  induction l with
  | nil => exact List.Perm.refl _
  | cons x xs ih => exact (insSorted_perm x (pySort xs)).trans (ih.cons x)

/-! ### Helper lemmas: the inventory filter -/

lemma rfKeys_char {url_list dir_files : List String} {k : String} :
    k ∈ rfKeys url_list dir_files ↔
      k ∈ url_list.map lastSeg ∧ k ∉ hdfInventory dir_files := by
  unfold rfKeys
  rw [List.mem_filter, mem_dedupFirst]
  simp

lemma lastUrlOf_spec {url_list : List String} {k : String}
    (h : ∃ u ∈ url_list, lastSeg u = k) :
    lastUrlOf url_list k ∈ url_list ∧ lastSeg (lastUrlOf url_list k) = k := by
  unfold lastUrlOf
  cases hf : url_list.reverse.find? (fun u => decide (lastSeg u = k)) with
  | none =>
    exfalso
    obtain ⟨u, hu, hlast⟩ := h
    have := List.find?_eq_none.mp hf u (List.mem_reverse.mpr hu)
    simp [hlast] at this
  | some v =>
    have h1 := List.find?_some hf
    have h2 := List.mem_of_find?_eq_some hf
    simp only [decide_eq_true_eq] at h1
    exact ⟨List.mem_reverse.mp h2, by simpa using h1⟩

lemma mem_required_files_of_key {enum : List String → List String}
    {url_list dir_files : List String} (henum : ∀ l, (enum l).Perm l) {k : String}
    (hk : k ∈ rfKeys url_list dir_files) :
    lastUrlOf url_list k ∈ required_files enum url_list dir_files := by
  unfold required_files
  exact List.mem_map_of_mem _ ((henum (rfKeys url_list dir_files)).mem_iff.mpr hk)

lemma required_files_char {enum : List String → List String}
    {url_list dir_files : List String} (henum : ∀ l, (enum l).Perm l) {v : String}
    (hv : v ∈ required_files enum url_list dir_files) :
    v ∈ url_list ∧ lastSeg v ∈ rfKeys url_list dir_files := by
  unfold required_files at hv
  obtain ⟨k, hk, hvk⟩ := List.mem_map.mp hv
  have hk2 : k ∈ rfKeys url_list dir_files :=
    (henum (rfKeys url_list dir_files)).mem_iff.mp hk
  have hke : k ∈ url_list.map lastSeg := (rfKeys_char.mp hk2).1
  obtain ⟨u, hu, hlast⟩ := List.mem_map.mp hke
  have hspec := lastUrlOf_spec ⟨u, hu, hlast⟩
  subst hvk
  exact ⟨hspec.1, hspec.2.symm ▸ hk2⟩

lemma required_files_empty {enum : List String → List String}
    {url_list dir_files : List String} (henum : ∀ l, (enum l).Perm l)
    (h : ∀ k ∈ url_list.map lastSeg, k ∈ hdfInventory dir_files) :
    required_files enum url_list dir_files = [] := by
  have hkeys : rfKeys url_list dir_files = [] := by
    unfold rfKeys
    rw [List.filter_eq_nil_iff]
    intro k hk
    simp only [decide_not, Bool.not_eq_true', decide_eq_false_iff_not, not_not]
    exact h k (mem_dedupFirst.mp hk)
  unfold required_files
  rw [hkeys, (henum []).eq_nil]
  rfl

/-! ### Helper lemmas: transfer passes -/

lemma runTransfers_results (d : String) (tr : String → TransferOut) :
    ∀ (gr : List String) (fs : List String),
      (runTransfers d tr fs gr).1 = gr.map (fun u => dgResult d (tr u) u) := by
  intro gr
  induction gr with
  | nil => intro fs; rfl
  | cons u us ih => intro fs; simp [runTransfers, ih]

lemma mem_dgEffect_of_mem {n u : String} {fs : List String} (t : TransferOut)
    (hn : endsW n ".partial" = false) (h : n ∈ fs) : n ∈ dgEffect t u fs := by
  have hne : n ≠ lastSeg u ++ ".partial" := by
    intro hc
    rw [hc, endsW_append] at hn
    exact Bool.true_eq_false.mp hn
  cases t with
  | notOk => exact h
  | noLength => exact h
  | midFail => exact mem_fsAdd_of_mem _ h
  | ok => exact mem_fsAdd_of_mem _ (mem_fsDel (mem_fsAdd_of_mem _ h) hne)

lemma runTransfers_pres {d : String} {tr : String → TransferOut} {n : String}
    (hn : endsW n ".partial" = false) :
    ∀ (gr : List String) (fs : List String), n ∈ fs → n ∈ (runTransfers d tr fs gr).2 := by
  intro gr
  induction gr with
  | nil => intro fs h; exact h
  | cons u us ih =>
    intro fs h
    exact ih _ (mem_dgEffect_of_mem (tr u) hn h)

lemma runTransfers_adds {d : String} {tr : String → TransferOut} {v : String} :
    ∀ (gr : List String) (fs : List String), v ∈ gr → tr v = .ok →
      endsW (lastSeg v) ".partial" = false →
      lastSeg v ∈ (runTransfers d tr fs gr).2 := by
  intro gr
  induction gr with
  | nil => intro fs h; exact absurd h (List.not_mem_nil v)
  | cons u us ih =>
    intro fs hmem hok hsuf
    rcases List.mem_cons.mp hmem with h1 | h1
    · subst h1
      by_cases h2 : v ∈ us
      · exact ih _ h2 hok hsuf
      · refine runTransfers_pres hsuf us _ ?_
        rw [hok]
        exact mem_fsAdd_self _ _
    · exact ih _ h1 hok hsuf

lemma mem_of_mem_dgEffect {n u : String} {fs : List String} {t : TransferOut}
    (h : n ∈ dgEffect t u fs) :
    n ∈ fs ∨ (t = .ok ∧ n = lastSeg u) ∨ (t = .midFail ∧ n = lastSeg u ++ ".partial") := by
  cases t with
  | notOk => exact Or.inl h
  | noLength => exact Or.inl h
  | midFail =>
    rcases mem_of_mem_fsAdd h with h2 | h2
    · exact Or.inl h2
    · exact Or.inr (Or.inr ⟨rfl, h2⟩)
  | ok =>
    rcases mem_of_mem_fsAdd h with h2 | h2
    · rcases mem_of_mem_fsAdd (mem_of_mem_fsDel h2).1 with h3 | h3
      · exact Or.inl h3
      · exact absurd h3 (mem_of_mem_fsDel h2).2
    · exact Or.inr (Or.inl ⟨rfl, h2⟩)

lemma runTransfers_new {d : String} {tr : String → TransferOut} {n : String} :
    ∀ (gr : List String) (fs : List String), n ∈ (runTransfers d tr fs gr).2 →
      n ∈ fs ∨ ∃ w ∈ gr, (tr w = .ok ∧ n = lastSeg w) ∨
        (tr w = .midFail ∧ n = lastSeg w ++ ".partial") := by
  intro gr
  induction gr with
  | nil => intro fs h; exact Or.inl h
  | cons u us ih =>
    intro fs h
    rcases ih _ h with h1 | ⟨w, hw, hcase⟩
    · rcases mem_of_mem_dgEffect h1 with h2 | h2 | h2
      · exact Or.inl h2
      · exact Or.inr ⟨u, List.mem_cons_self _ _, Or.inl ⟨h2.1, h2.2⟩⟩
      · exact Or.inr ⟨u, List.mem_cons_self _ _, Or.inr ⟨h2.1, h2.2⟩⟩
    · exact Or.inr ⟨w, List.mem_cons_of_mem _ hw, hcase⟩

lemma firstErr_none_all {rs : List (Except PyErr String)} (h : firstErr rs = none) :
    ∀ r ∈ rs, ∃ x, r = .ok x := by
  intro r hr
  have := List.findSome?_eq_none_iff.mp h r hr
  cases r with
  | error pe => simp at this
  | ok x => exact ⟨x, rfl⟩

lemma fetchPass_snd (d : String) (tr : String → TransferOut) (fs gr : List String) :
    (fetchPass d tr fs gr).2 = (runTransfers d tr fs gr).2 := by
  unfold fetchPass
  cases firstErr (runTransfers d tr fs gr).1 <;> rfl

lemma fetchPass_ok_all {d : String} {tr : String → TransferOut} {fs gr : List String}
    {dload : List String} (h : (fetchPass d tr fs gr).1 = .ok dload) :
    ∀ u ∈ gr, tr u = .ok := by
  intro u hu
  unfold fetchPass at h
  cases hfe : firstErr (runTransfers d tr fs gr).1 with
  | some pe => rw [hfe] at h; exact absurd h (by simp)
  | none =>
    have hall := firstErr_none_all hfe
    rw [runTransfers_results] at hall
    obtain ⟨x, hx⟩ := hall _ (List.mem_map_of_mem _ hu)
    revert hx
    cases tr u <;> intro hx
    · exact absurd hx (by simp [dgResult])
    · exact absurd hx (by simp [dgResult])
    · exact absurd hx (by simp [dgResult])
    · rfl

lemma firstErr_single_fail {d : String} {tr : String → TransferOut} :
    ∀ gr : List String, (∃ u ∈ gr, tr u = .notOk) → (∀ v ∈ gr, tr v = .notOk ∨ tr v = .ok) →
      firstErr (gr.map (fun u => dgResult d (tr u) u)) = some .ioError := by
  intro gr
  induction gr with
  | nil => rintro ⟨u, hu, _⟩ _; exact absurd hu (List.not_mem_nil u)
  | cons v vs ih =>
    rintro ⟨u, hu, huf⟩ hall
    rcases hall v (List.mem_cons_self _ _) with hv | hv
    · simp [firstErr, List.findSome?, dgResult, hv]
    · have hne : u ≠ v := fun hc => by rw [hc, hv] at huf; exact TransferOut.noConfusion huf
      have hu2 : u ∈ vs := by
        rcases List.mem_cons.mp hu with h1 | h1
        · exact absurd h1 hne
        · exact h1
      have := ih ⟨u, hu2, huf⟩ (fun w hw => hall w (List.mem_cons_of_mem _ hw))
      simpa [firstErr, List.findSome?, dgResult, hv] using this

/-! ### Helper lemmas: the date scan against its specification -/

lemma gadEntry_eq {url : String} {s e : PyDate} {line : String}
    (h : (containsS line "[DIR]" && containsS line "href") = true →
      ((hrefTarget line).bind (fun h2 => strptimeYmd (stripSlash h2))).isSome = true) :
    gadEntry url s e line = .ok (gadSpecLine url s e line) := by
  unfold gadEntry gadSpecLine
  by_cases hc : (containsS line "[DIR]" && containsS line "href") = true
  · rw [if_pos hc, if_pos hc]
    cases hh : hrefTarget line with
    | none =>
      have h2 := h hc
      rw [hh] at h2
      simp at h2
    | some tgt =>
      cases hp : strptimeYmd (stripSlash tgt) with
      | none =>
        have h2 := h hc
        rw [hh] at h2
        simp [hp] at h2
      | some dt =>
        cases hd : (dateLe s dt && dateLe dt e) <;> simp [hp, hd]
  · rw [if_neg hc, if_neg hc]

lemma gadLoop_eq {url : String} {s e : PyDate} :
    ∀ L : List String,
      (∀ line ∈ L, (containsS line "[DIR]" && containsS line "href") = true →
        ((hrefTarget line).bind (fun h2 => strptimeYmd (stripSlash h2))).isSome = true) →
      gadLoop url s e L = .ok (L.filterMap (gadSpecLine url s e)) := by
  intro L
  induction L with
  | nil => intro _; rfl
  | cons a t ih =>
    intro hL
    unfold gadLoop
    rw [gadEntry_eq (hL a (List.mem_cons_self a t))]
    rw [ih (fun line hl => hL line (List.mem_cons_of_mem _ hl))]
    rw [List.filterMap_cons]
    cases gadSpecLine url s e a <;> rfl

/-! ### Helper lemmas: the granule listing against its specification -/

lemma dglTiles_eq_some {url line f : String} (hf : hrefTarget line = some f) :
    ∀ ts : List String, dglTiles url line ts =
      .ok ((ts.filter (fun t => tileHit line t)).map (fun _ => url ++ "/" ++ f)) := by
  intro ts
  induction ts with
  | nil => rfl
  | cons t ts ih =>
    unfold dglTiles
    by_cases ht : tileHit line t = true
    · rw [if_pos ht, hf, ih, List.filter_cons_of_pos ht]
      rfl
    · rw [if_neg ht, ih, List.filter_cons_of_neg ht]

lemma dglTiles_no_hit {url line : String} :
    ∀ ts : List String, (∀ t ∈ ts, ¬ tileHit line t = true) → dglTiles url line ts = .ok [] := by
  intro ts
  induction ts with
  | nil => intro _; rfl
  | cons t ts ih =>
    intro h
    unfold dglTiles
    rw [if_neg (h t (List.mem_cons_self _ _))]
    exact ih (fun x hx => h x (List.mem_cons_of_mem _ hx))

lemma dglLine_eq {url line : String} {ts : List String}
    (h : (∃ t ∈ ts, tileHit line t = true) → (hrefTarget line).isSome = true) :
    dglTiles url line ts = .ok (match hrefTarget line with
      | some f => (ts.filter (fun t => tileHit line t)).map (fun _ => url ++ "/" ++ f)
      | none => []) := by
  cases hf : hrefTarget line with
  | some f => exact dglTiles_eq_some hf ts
  | none =>
    refine dglTiles_no_hit ts ?_
    intro t ht hc
    have h2 := h ⟨t, ht, hc⟩
    rw [hf] at h2
    simp at h2

lemma dglSpec_cons {url a : String} {ts rest : List String} :
    dglSpec url ts (a :: rest) =
      (match hrefTarget a with
        | some f => (ts.filter (fun t => tileHit a t)).map (fun _ => url ++ "/" ++ f)
        | none => []) ++ dglSpec url ts rest := rfl

lemma dglLines_eq {url : String} {ts : List String} :
    ∀ lines : List String,
      (∀ line ∈ lines, (∃ t ∈ ts, tileHit line t = true) → (hrefTarget line).isSome = true) →
      dglLines url ts lines = .ok (dglSpec url ts lines) := by
  intro lines
  induction lines with
  | nil => intro _; rfl
  | cons a rest ih =>
    intro h
    unfold dglLines
    rw [dglLine_eq (h a (List.mem_cons_self _ _))]
    rw [ih (fun l hl => h l (List.mem_cons_of_mem _ hl))]
    rw [dglSpec_cons]

lemma mem_dglSpecLine {url a : String} {ts : List String} {u : String} :
    (u ∈ (match hrefTarget a with
        | some f => (ts.filter (fun t => tileHit a t)).map (fun _ => url ++ "/" ++ f)
        | none => ([] : List String))) ↔
      ∃ t ∈ ts, tileHit a t = true ∧ ∃ f, hrefTarget a = some f ∧ u = url ++ "/" ++ f := by
  cases hf : hrefTarget a with
  | none =>
    simp only [List.not_mem_nil, false_iff]
    rintro ⟨t, _, _, f, hf2, _⟩
    exact Option.noConfusion hf2
  | some f =>
    simp only [List.mem_map, List.mem_filter]
    constructor
    · rintro ⟨t, ⟨ht, hhit⟩, rfl⟩
      exact ⟨t, ht, hhit, f, rfl, rfl⟩
    · rintro ⟨t, ht, hhit, f2, hf2, rfl⟩
      exact ⟨t, ⟨ht, hhit⟩, by rw [Option.some.inj hf2]⟩

lemma mem_dglSpec {url : String} {ts : List String} {u : String} :
    ∀ {lines : List String}, u ∈ dglSpec url ts lines ↔
      ∃ line ∈ lines, ∃ t ∈ ts, tileHit line t = true ∧
        ∃ f, hrefTarget line = some f ∧ u = url ++ "/" ++ f := by
  intro lines
  induction lines with
  | nil => simp [dglSpec, flatS]
  | cons a rest ih =>
    rw [dglSpec_cons, List.mem_append, mem_dglSpecLine, ih]
    constructor
    · rintro (h | ⟨line, hl, hrest⟩)
      · exact ⟨a, List.mem_cons_self _ _, h⟩
      · exact ⟨line, List.mem_cons_of_mem _ hl, hrest⟩
    · rintro ⟨line, hl, hrest⟩
      rcases List.mem_cons.mp hl with h1 | h1
      · exact Or.inl (h1 ▸ hrest)
      · exact Or.inr ⟨line, h1, hrest⟩

lemma tileHit_iff {line t : String} :
    tileHit line t = true ↔
      containsS line t = true ∧ containsS line ".xml" = false ∧
        containsS line "BROWSE" = false := by
  simp [tileHit, Bool.and_eq_true, Bool.not_eq_true']
  tauto

lemma filter_eq_single {p : String → Bool} :
    ∀ (l : List String) (x : String), x ∈ l → l.Nodup → (∀ y ∈ l, (p y = true ↔ y = x)) →
      l.filter p = [x] := by
  intro l
  induction l with
  | nil => intro x hx; exact absurd hx (List.not_mem_nil x)
  | cons h t ih =>
    intro x hx hnd hp
    rcases List.mem_cons.mp hx with h1 | h1
    · subst h1
      rw [List.filter_cons_of_pos ((hp x (List.mem_cons_self _ _)).mpr rfl)]
      have : t.filter p = [] := by
        rw [List.filter_eq_nil_iff]
        intro y hy hc
        have := (hp y (List.mem_cons_of_mem _ hy)).mp hc
        subst this
        exact (List.nodup_cons.mp hnd).1 hy
      rw [this]
    · have hne : h ≠ x := fun hc => (List.nodup_cons.mp hnd).1 (hc ▸ h1)
      rw [List.filter_cons_of_neg (by
        intro hc
        exact hne ((hp h (List.mem_cons_self _ _)).mp hc))]
      exact ih x h1 (List.nodup_cons.mp hnd).2
        (fun y hy => hp y (List.mem_cons_of_mem _ hy))

/-! ### Helper lemmas: the orchestrator's two stages -/

lemma get_modis_data_eq (enum : List String → List String) (env : Env)
    (platform product : String) (tiles : TilesArg) (output_dir : String)
    (s e : PyDate) (gr : List String)
    (hplat : pyUpper platform ∈ (["MOLA", "MOLT", "MOTA"] : List String))
    (hgr : discoverGranules env platform product tiles s e = .ok gr) :
    get_modis_data enum env platform product tiles output_dir s e =
      downloadStage enum env.transfer output_dir env.dirFiles gr := by
  unfold get_modis_data
  rw [if_pos hplat, hgr]

lemma get_modis_data_assert (enum : List String → List String) (env : Env)
    (platform product : String) (tiles : TilesArg) (output_dir : String) (s e : PyDate)
    (hplat : pyUpper platform ∉ (["MOLA", "MOLT", "MOTA"] : List String)) :
    get_modis_data enum env platform product tiles output_dir s e =
      (.error .assertionError, env.dirFiles) := by
  unfold get_modis_data
  rw [if_neg hplat]

lemma downloadStage_rerun (enum : List String → List String) (tr : String → TransferOut)
    (output_dir : String) (fs0 gr files fs1 : List String)
    (henum : ∀ l, (enum l).Perm l)
    (hhdf : ∀ u ∈ gr, endsW (lastSeg u) ".hdf" = true)
    (h1 : downloadStage enum tr output_dir fs0 gr = (.ok files, fs1)) :
    downloadStage enum tr output_dir fs1 gr = (.ok [], fs1) := by
  unfold downloadStage at h1 ⊢
  cases hrf : required_files enum gr fs0 with
  | nil =>
    rw [hrf] at h1
    simp only [Prod.mk.injEq, Except.ok.injEq] at h1
    obtain ⟨_, hfs⟩ := h1
    subst hfs
    rw [hrf]
  | cons k ks =>
    rw [hrf] at h1
    cases hp : (fetchPass output_dir tr fs0 (k :: ks)).1 with
    | error pe =>
      rw [hp] at h1
      simp at h1
    | ok dload =>
      rw [hp] at h1
      dsimp only at h1
      by_cases hver :
          ((k :: ks).map lastSeg).all (fun f => decide (f ∈ dload.map lastSeg)) = true
      · rw [if_pos hver] at h1
        simp only [Prod.mk.injEq, Except.ok.injEq] at h1
        obtain ⟨_, hfs⟩ := h1
        have hall : ∀ u ∈ (k :: ks), tr u = .ok := fetchPass_ok_all hp
        have hempty : required_files enum gr fs1 = [] := by
          apply required_files_empty henum
          intro k2 hk2
          obtain ⟨u, hu, hku⟩ := List.mem_map.mp hk2
          have hk2hdf : endsW k2 ".hdf" = true := hku ▸ hhdf u hu
          have hk2fs1 : k2 ∈ fs1 := by
            rw [← hfs, fetchPass_snd]
            by_cases hinv : k2 ∈ hdfInventory fs0
            · exact runTransfers_pres (endsW_hdf_no_sidecar hk2hdf) _ _
                (List.mem_filter.mp hinv).1
            · have hkey : k2 ∈ rfKeys gr fs0 := rfKeys_char.mpr ⟨hk2, hinv⟩
              have hv := mem_required_files_of_key henum hkey
              have hvseg : lastSeg (lastUrlOf gr k2) = k2 :=
                (lastUrlOf_spec ⟨u, hu, hku⟩).2
              rw [hrf] at hv
              have h9 := @runTransfers_adds output_dir tr (lastUrlOf gr k2) (k :: ks) fs0
                hv (hall _ hv) (by rw [hvseg]; exact endsW_hdf_no_sidecar hk2hdf)
              rwa [hvseg] at h9
          exact List.mem_filter.mpr ⟨hk2fs1, hk2hdf⟩
        rw [hempty]
      · rw [if_neg hver] at h1
        simp at h1

/-! ### Claim theorems -/

/-- Claim C1 (code bug): when the date window matches no archive entries the
date scan does return the empty sequence, but the orchestrator does not reach
its empty-result return: the debug statement
`LOG.debug(f"First:{str(the_dates[0]):s}")` evaluates `the_dates[0]` eagerly
and raises `IndexError`, so `get_modis_data` aborts with an error instead of
terminating normally with `[]`.  Evaluated here at a concrete request whose
2020 window matches none of the archive's 2018 dates. -/
theorem c1_empty_scan_crashes :
    get_available_dates ((mkDemoEnv demoHdf .ok []).pages demoBase) demoBase
      d200101 d200201 = .ok [] ∧
    get_modis_data enumId (mkDemoEnv demoHdf .ok []) "MOLT" demoProduct
      (.list ["h17v04"]) "out" d200101 d200201 = (.error .indexError, []) :=
  ⟨by decide, by decide⟩

/-- Claim C5 (code bug): on a connection failure `download_granule_list` does
not sleep 240 seconds and retry: the handler clause
`except requests.execeptions.ConnectionError` misspells `exceptions`, so
evaluating it while the `ConnectionError` is in flight raises
`AttributeError`, which propagates immediately on the very first failure. -/
theorem c5_conn_failure_raises (url : String) (tiles : TilesArg) :
    download_granule_list .connFail url tiles = .error .attributeError := rfl

/-- Claim C6: for every index page and date window, the scan skips exactly the
first 19 lines and emits, in listing order, one entry per remaining line that
contains the directory marker token `[DIR]` and an href, whose extracted link
text parses as a `YYYY.MM.DD` date `d` with `startDate ≤ d ≤ endDate`, the
emitted URL being `baseUrl + "/" + dateString` — `scanSpec` is exactly this
filter-map.  The hypothesis is the well-formedness of the marker lines
(extraction and parse succeed), without which the Python loop raises rather
than skipping the line. -/
theorem c6_date_scan (url : String) (s e : PyDate) (lines : List String)
    (hwf : ∀ line ∈ lines.drop 19,
      (containsS line "[DIR]" && containsS line "href") = true →
      ((hrefTarget line).bind (fun h2 => strptimeYmd (stripSlash h2))).isSome = true) :
    get_available_dates (.resp true lines) url s e = .ok (scanSpec url s e lines) := by
  show gadLoop url s e (lines.drop 19) =
    .ok ((lines.drop 19).filterMap (gadSpecLine url s e))
  exact gadLoop_eq _ hwf

/-- Witness for C6: the demo index page (19 boilerplate lines plus one
directory row for 2018.01.01) scans to exactly that one dated URL. -/
theorem c6_date_scan_witness :
    get_available_dates (.resp true demoIndexLines) demoBase d180101 d180201 =
      .ok [demoBase ++ "/2018.01.01"] := by
  have h := c6_date_scan demoBase d180101 d180201 demoIndexLines (by decide)
  rw [h]
  decide

/-- Claim C7: a line's linked file is included if and only if, for some
requested tile identifier, the line contains that identifier as a substring
and references neither an XML metadata sidecar nor a browse image.  The first
conjunct shows the code computes the spec-side `dglSpec`; the second is the
membership characterization in the claim's terms.  The hypothesis says
matching lines carry an extractable href (otherwise the source raises). -/
theorem c7_granule_filter (url : String) (ts lines : List String)
    (hwf : ∀ line ∈ lines, (∃ t ∈ ts, tileHit line t = true) →
      (hrefTarget line).isSome = true) :
    dglLines url ts lines = .ok (dglSpec url ts lines) ∧
    ∀ u, u ∈ dglSpec url ts lines ↔
      ∃ line ∈ lines, ∃ t ∈ ts,
        containsS line t = true ∧ containsS line ".xml" = false ∧
        containsS line "BROWSE" = false ∧
        ∃ f, hrefTarget line = some f ∧ u = url ++ "/" ++ f := by
  refine ⟨dglLines_eq lines hwf, fun u => ?_⟩
  rw [mem_dglSpec]
  constructor
  · rintro ⟨line, hl, t, ht, hhit, rest⟩
    obtain ⟨h1, h2, h3⟩ := tileHit_iff.mp hhit
    exact ⟨line, hl, t, ht, h1, h2, h3, rest⟩
  · rintro ⟨line, hl, t, ht, h1, h2, h3, rest⟩
    exact ⟨line, hl, t, ht, tileHit_iff.mpr ⟨h1, h2, h3⟩, rest⟩

/-- Witness for C7: the demo date page lists exactly the one granule matching
tile h17v04. -/
theorem c7_granule_filter_witness :
    dglLines demoDateUrl ["h17v04"] (demoDatePage demoHdf) =
      .ok [demoDateUrl ++ "/" ++ demoHdf] := by
  have h := (c7_granule_filter demoDateUrl ["h17v04"] (demoDatePage demoHdf) (by decide)).1
  rw [h]
  decide

/-- Claim C10: a single tile passed as a bare string is wrapped into a
one-element list, not iterated character by character, so the result equals
that for the singleton list. -/
theorem c10_single_tile_wrapped (f : FetchOut) (url t : String) :
    download_granule_list f url (.single t) = download_granule_list f url (.list [t]) := by
  cases f <;> rfl

/-- Claim C9 counterexample: `"MCD12AMOD000"` matches the product regex and its
prefix is `MCD`, so the claim's prefix map demands platform MOTA; the source
searches for `"MOD"` as a substring first (`options.product.find("MOD") >= 0`)
and derives MOLT instead — platform is not a function of the prefix. -/
theorem c9_counterexample :
    matchesProductRegex (pyUpper "MCD12AMOD000") = true ∧
    ("MCD12AMOD000").toList.take 3 = ['M', 'C', 'D'] ∧
    derive_platform "MCD12AMOD000" = .ok "MOLT" ∧ "MOLT" ≠ "MOTA" :=
  ⟨by decide, by decide, by decide, by decide⟩

/-- Claim C9 amended: platform derivation is a pure function of which of the
tokens `MOD`, `MYD`, `MCD` occur as substrings of the product id as given,
searched in that priority order (this coincides with the prefix map exactly
when the prefix token is the only one occurring); a product failing the
pattern, or containing none of the tokens, is rejected with `ValueError`
before `get_modis_data` — and hence any network activity — is invoked (the
outcome is independent of the downloader). -/
theorem c9_amended (p : String) :
    (matchesProductRegex (pyUpper p) = true →
      (containsS p "MOD" = true → derive_platform p = .ok "MOLT") ∧
      (containsS p "MOD" = false → containsS p "MYD" = true →
        derive_platform p = .ok "MOLA") ∧
      (containsS p "MOD" = false → containsS p "MYD" = false →
        containsS p "MCD" = true → derive_platform p = .ok "MOTA") ∧
      (containsS p "MOD" = false → containsS p "MYD" = false →
        containsS p "MCD" = false →
        ∀ g1 g2 : String → Except PyErr (List String),
          main_flow p g1 = .error .valueError ∧ main_flow p g1 = main_flow p g2)) ∧
    (matchesProductRegex (pyUpper p) = false →
      ∀ g1 g2 : String → Except PyErr (List String),
        main_flow p g1 = .error .valueError ∧ main_flow p g1 = main_flow p g2) := by
  constructor
  · intro hm
    refine ⟨?_, ?_, ?_, ?_⟩
    · intro h1
      unfold derive_platform
      rw [if_pos hm, if_pos h1]
    · intro h1 h2
      unfold derive_platform
      rw [if_pos hm, if_neg (by simp [h1]), if_pos h2]
    · intro h1 h2 h3
      unfold derive_platform
      rw [if_pos hm, if_neg (by simp [h1]), if_neg (by simp [h2]), if_pos h3]
    · intro h1 h2 h3 g1 g2
      have hd : derive_platform p = .error .valueError := by
        unfold derive_platform
        rw [if_pos hm, if_neg (by simp [h1]), if_neg (by simp [h2]), if_neg (by simp [h3])]
      unfold main_flow
      rw [hd]
      exact ⟨rfl, rfl⟩
  · intro hm g1 g2
    have hd : derive_platform p = .error .valueError := by
      unfold derive_platform
      rw [if_neg (by simp [hm])]
    unfold main_flow
    rw [hd]
    exact ⟨rfl, rfl⟩

/-- Witness for C9 (amended): `MOD13A3.006` passes the pattern and derives
MOLT. -/
theorem c9_amended_witness : derive_platform "MOD13A3.006" = .ok "MOLT" :=
  ((c9_amended "MOD13A3.006").1 (by decide)).1 (by decide)

/-- Claim C2 counterexample: two candidates sharing the derived file name
`f.hdf` keep the LAST-seen URL (`dict(zip(flist, url_list))` lets later pairs
overwrite earlier ones), not the first-seen URL the claim states. -/
theorem c2_counterexample :
    required_files enumId ["a/f.hdf", "b/f.hdf"] [] = ["b/f.hdf"] ∧
    required_files enumId ["a/f.hdf", "b/f.hdf"] [] ≠ ["a/f.hdf"] :=
  ⟨by decide, by decide⟩

/-- Claim C2 amended: for every valid set-enumeration oracle (any permutation),
`required_files` contains exactly, once per derived fileName that is not
present with the `.hdf` extension in the output directory, the LAST-seen
candidate URL bearing that fileName; the result order is the enumeration order
of the Python set (some permutation of the residual name set), and result
fileNames are pairwise distinct. -/
theorem c2_amended (enum : List String → List String) (url_list dir_files : List String)
    (henum : ∀ l, (enum l).Perm l) :
    (∀ u, u ∈ required_files enum url_list dir_files ↔
      ∃ k, k ∈ url_list.map lastSeg ∧ k ∉ hdfInventory dir_files ∧
        (url_list.reverse.find? (fun v => decide (lastSeg v = k))).getD "" = u) ∧
    ((required_files enum url_list dir_files).map lastSeg).Nodup := by
  constructor
  · intro u
    constructor
    · intro hu
      obtain ⟨k, hk, hku⟩ := List.mem_map.mp hu
      have hk2 : k ∈ rfKeys url_list dir_files :=
        (henum (rfKeys url_list dir_files)).mem_iff.mp hk
      obtain ⟨hk3, hk4⟩ := rfKeys_char.mp hk2
      exact ⟨k, hk3, hk4, hku⟩
    · rintro ⟨k, hk1, hk2, hfind⟩
      have hk : k ∈ rfKeys url_list dir_files := rfKeys_char.mpr ⟨hk1, hk2⟩
      have := mem_required_files_of_key henum hk
      rwa [show lastUrlOf url_list k = u from hfind] at this
  · have hmap : (required_files enum url_list dir_files).map lastSeg =
        enum (rfKeys url_list dir_files) := by
      unfold required_files
      rw [List.map_map]
      have : ∀ k ∈ enum (rfKeys url_list dir_files),
          (lastSeg ∘ lastUrlOf url_list) k = k := by
        intro k hk
        have hk2 : k ∈ rfKeys url_list dir_files :=
          (henum (rfKeys url_list dir_files)).mem_iff.mp hk
        have hk3 : k ∈ url_list.map lastSeg := (rfKeys_char.mp hk2).1
        obtain ⟨u2, hu2, hlast⟩ := List.mem_map.mp hk3
        exact (lastUrlOf_spec ⟨u2, hu2, hlast⟩).2
      rw [List.map_congr_left this]
      simp
    rw [hmap]
    exact ((henum (rfKeys url_list dir_files)).nodup_iff).mpr
      (List.Nodup.filter _ nodup_dedupFirst)

/-- Witness for C2 (amended): `b/f.hdf` is selected (last-seen URL for
`f.hdf`, which is absent from the inventory). -/
theorem c2_amended_witness :
    "b/f.hdf" ∈ required_files enumId ["a/f.hdf", "b/f.hdf", "c/g.hdf"] ["g.hdf"] :=
  ((c2_amended enumId ["a/f.hdf", "b/f.hdf", "c/g.hdf"] ["g.hdf"]
    (fun l => List.Perm.refl l)).1 "b/f.hdf").mpr ⟨"f.hdf", by decide, by decide, by decide⟩

/-- Claim C3 counterexample: a transfer that fails while streaming the body
leaves `<fileName>.partial` in the output directory, and the run's terminal
state is a fatal abort with that sidecar still present — the source has no
cleanup handler on this exit path. -/
theorem c3_counterexample :
    get_modis_data enumId (mkDemoEnv demoHdf .midFail []) "MOLT" demoProduct
      (.list ["h17v04"]) "out" d180101 d180201 =
      (.error .connectionError, [demoHdf ++ ".partial"]) ∧
    endsW (demoHdf ++ ".partial") ".partial" = true :=
  ⟨by decide, by decide⟩

/-- Claim C3 amended: the success path renames the sidecar to the final name
and the bad-status / missing-header paths raise before the sidecar is created,
so those exits leave no `.partial` file; but a mid-stream streaming failure
does leave `<fileName>.partial` behind. -/
theorem c3_amended (output_dir url : String) (t : TransferOut) (fs : List String)
    (hclean : (lastSeg url ++ ".partial") ∉ fs) :
    ((t = .ok ∨ t = .notOk ∨ t = .noLength) →
      (lastSeg url ++ ".partial") ∉ (download_granules output_dir t url fs).2) ∧
    (t = .midFail → (lastSeg url ++ ".partial") ∈ (download_granules output_dir t url fs).2) := by
  constructor
  · rintro (rfl | rfl | rfl)
    · intro hc
      rcases mem_of_mem_fsAdd hc with h1 | h1
      · exact (mem_of_mem_fsDel h1).2 rfl
      · have hlen := congrArg String.length h1
        rw [String.length_append] at hlen
        have h8 : (".partial" : String).length = 8 := rfl
        rw [h8] at hlen
        omega
    · exact hclean
    · exact hclean
  · rintro rfl
    exact mem_fsAdd_self _ _

/-- Witness for C3 (amended): after a successful transfer of `u/f.hdf` into an
empty directory, no `.partial` sidecar remains. -/
theorem c3_amended_witness :
    (lastSeg "u/f.hdf" ++ ".partial") ∉ (download_granules "out" .ok "u/f.hdf" []).2 :=
  (c3_amended "out" "u/f.hdf" .ok [] (by decide)).1 (Or.inl rfl)

/-- Claim C4 counterexample: one bad-status URL among five makes the download
stage abort the whole run with the propagated `IOError` — there is no
subsequent in-run retry pass (the `while` loop's else-branch raises instead of
looping).  The four sibling transfers do complete and are renamed, and a fresh
invocation's inventory filter selects only the failed candidate. -/
theorem c4_counterexample :
    downloadStage enumId tr5 "out" [] gr5 =
      (.error .ioError, ["a.hdf", "b.hdf", "d.hdf", "e.hdf"]) ∧
    required_files enumId gr5 ["a.hdf", "b.hdf", "d.hdf", "e.hdf"] = ["u/c.hdf"] :=
  ⟨by decide, by decide⟩

/-- Claim C4 amended: when exactly one candidate's transfer fails with a
non-success status, only that file raises (`IOError`), the sibling transfers in
the same pass still complete and are renamed to their final names, and the run
then aborts with that error instead of retrying; a subsequent orchestrator
invocation re-attempts only the failed file, because the inventory filter
applied to the resulting directory returns exactly the failed candidate. -/
theorem c4_amended (output_dir : String) (tr : String → TransferOut)
    (enum : List String → List String) (fs gr : List String) (u0 : String)
    (henum : ∀ l, (enum l).Perm l) (hmem : u0 ∈ gr) (hfail : tr u0 = .notOk)
    (hok : ∀ v ∈ gr, v ≠ u0 → tr v = .ok)
    (hhdf : ∀ v ∈ gr, endsW (lastSeg v) ".hdf" = true)
    (hnd : (gr.map lastSeg).Nodup) (hfs : ∀ v ∈ gr, lastSeg v ∉ fs) :
    (fetchPass output_dir tr fs gr).1 = .error .ioError ∧
    (∀ v ∈ gr, v ≠ u0 → lastSeg v ∈ (fetchPass output_dir tr fs gr).2) ∧
    required_files enum gr (fetchPass output_dir tr fs gr).2 = [u0] := by
  have hall : ∀ v ∈ gr, tr v = .notOk ∨ tr v = .ok := by
    intro v hv
    by_cases hveq : v = u0
    · exact Or.inl (hveq ▸ hfail)
    · exact Or.inr (hok v hv hveq)
  have hfe : firstErr (runTransfers output_dir tr fs gr).1 = some .ioError := by
    rw [runTransfers_results]
    exact firstErr_single_fail gr ⟨u0, hmem, hfail⟩ hall
  have h1 : (fetchPass output_dir tr fs gr).1 = .error .ioError := by
    unfold fetchPass
    rw [hfe]
  have hsnd := fetchPass_snd output_dir tr fs gr
  have hu0notin : lastSeg u0 ∉ (runTransfers output_dir tr fs gr).2 := by
    intro hc
    rcases runTransfers_new gr fs hc with hin | ⟨w, hw, hcase⟩
    · exact hfs u0 hmem hin
    · rcases hcase with ⟨hwk, heq⟩ | ⟨hwk, _⟩
      · have hwu : w = u0 := List.inj_on_of_nodup_map hnd hw hmem heq.symm
        rw [hwu, hfail] at hwk
        exact TransferOut.noConfusion hwk
      · rcases hall w hw with h2 | h2 <;> rw [h2] at hwk <;>
          exact TransferOut.noConfusion hwk
  have hsib : ∀ v ∈ gr, v ≠ u0 → lastSeg v ∈ (runTransfers output_dir tr fs gr).2 :=
    fun v hv hne =>
      runTransfers_adds gr fs hv (hok v hv hne) (endsW_hdf_no_sidecar (hhdf v hv))
  refine ⟨h1, fun v hv hne => hsnd ▸ hsib v hv hne, ?_⟩
  rw [hsnd]
  have hkeys : rfKeys gr (runTransfers output_dir tr fs gr).2 = [lastSeg u0] := by
    unfold rfKeys
    rw [dedupFirst_of_nodup hnd]
    apply filter_eq_single (gr.map lastSeg) (lastSeg u0)
      (List.mem_map_of_mem _ hmem) hnd
    intro y hy
    obtain ⟨v, hv, hvy⟩ := List.mem_map.mp hy
    subst hvy
    rw [decide_eq_true_eq]
    constructor
    · intro hpred
      by_contra hne0
      have hvne : v ≠ u0 := fun hc => hne0 (by rw [hc])
      exact hpred (List.mem_filter.mpr ⟨hsib v hv hvne, hhdf v hv⟩)
    · intro hy0
      rw [hy0]
      intro hmem2
      exact hu0notin (List.mem_filter.mp hmem2).1
  unfold required_files
  rw [hkeys, List.perm_singleton.mp (henum [lastSeg u0])]
  have hlast : lastUrlOf gr (lastSeg u0) = u0 := by
    unfold lastUrlOf
    cases hf : gr.reverse.find? (fun v => decide (lastSeg v = lastSeg u0)) with
    | none =>
      exfalso
      have h3 := List.find?_eq_none.mp hf u0 (List.mem_reverse.mpr hmem)
      simp at h3
    | some w =>
      have hpw := List.find?_some hf
      have hww := List.mem_reverse.mp (List.mem_of_find?_eq_some hf)
      simp only [decide_eq_true_eq] at hpw
      rw [List.inj_on_of_nodup_map hnd hww hmem hpw]
      rfl
  rw [List.map_cons, List.map_nil, hlast]

/-- Witness for C4 (amended) at the five-candidate demo: the pass errors out
with `IOError` and the inventory filter over the resulting directory returns
exactly the failed URL. -/
theorem c4_amended_witness :
    (fetchPass "out" tr5 [] gr5).1 = .error .ioError ∧
    required_files enumId gr5 (fetchPass "out" tr5 [] gr5).2 = ["u/c.hdf"] := by
  have h := c4_amended "out" tr5 enumId [] gr5 "u/c.hdf" (fun l => List.Perm.refl l)
    (by decide) (by decide) (by decide) (by decide) (by decide) (by decide)
  exact ⟨h.1, h.2.2⟩

/-- Claim C8 counterexample: a granule whose file name lacks the `.hdf`
extension is materialized by the first run but invisible to the inventory
filter (which lists only `.hdf` files), so the second identical run downloads
it again: the second run's result is not the empty list the claim demands. -/
theorem c8_counterexample :
    get_modis_data enumId (mkDemoEnv demoTxt .ok []) "MOLT" demoProduct
      (.list ["h17v04"]) "out" d180101 d180201 =
      (.ok ["out/" ++ demoTxt], [demoTxt]) ∧
    get_modis_data enumId (mkDemoEnv demoTxt .ok [demoTxt]) "MOLT" demoProduct
      (.list ["h17v04"]) "out" d180101 d180201 =
      (.ok ["out/" ++ demoTxt], [demoTxt]) ∧
    (["out/" ++ demoTxt] : List String) ≠ [] :=
  ⟨by decide, by decide, by decide⟩

/-- Claim C8 amended: when every discovered candidate's derived file name
carries the inventory's target extension `.hdf`, a successful run materializes
every residual candidate, so re-running the orchestrator with the same request
against the resulting output directory downloads nothing and returns the empty
list (with the directory unchanged).  Candidates without the `.hdf` extension
escape the inventory filter and are re-fetched on every run. -/
theorem c8_amended (enum : List String → List String) (env : Env)
    (platform product : String) (tiles : TilesArg) (output_dir : String)
    (s e : PyDate) (gr files fs1 : List String)
    (henum : ∀ l, (enum l).Perm l)
    (hgr : discoverGranules env platform product tiles s e = .ok gr)
    (hhdf : ∀ u ∈ gr, endsW (lastSeg u) ".hdf" = true)
    (h1 : get_modis_data enum env platform product tiles output_dir s e = (.ok files, fs1)) :
    get_modis_data enum { env with dirFiles := fs1 } platform product tiles output_dir s e =
      (.ok [], fs1) := by
  by_cases hplat : pyUpper platform ∈ (["MOLA", "MOLT", "MOTA"] : List String)
  · have hgr2 : discoverGranules { env with dirFiles := fs1 } platform product tiles s e =
        .ok gr := hgr
    rw [get_modis_data_eq enum env platform product tiles output_dir s e gr hplat hgr] at h1
    rw [get_modis_data_eq enum { env with dirFiles := fs1 } platform product tiles
      output_dir s e gr hplat hgr2]
    show downloadStage enum env.transfer output_dir fs1 gr = (.ok [], fs1)
    exact downloadStage_rerun enum env.transfer output_dir env.dirFiles gr files fs1
      henum hhdf h1
  · rw [get_modis_data_assert enum env platform product tiles output_dir s e hplat] at h1
    simp at h1

/-- Witness for C8 (amended) at the demo environment with an `.hdf` granule:
the second run returns no downloads and leaves the directory unchanged. -/
theorem c8_amended_witness :
    get_modis_data enumId { mkDemoEnv demoHdf .ok [] with dirFiles := [demoHdf] } "MOLT"
      demoProduct (.list ["h17v04"]) "out" d180101 d180201 = (.ok [], [demoHdf]) := by
  have h := c8_amended enumId (mkDemoEnv demoHdf .ok []) "MOLT" demoProduct
    (.list ["h17v04"]) "out" d180101 d180201
    [demoDateUrl ++ "/" ++ demoHdf] ["out/" ++ demoHdf] [demoHdf]
    (fun l => List.Perm.refl l) (by decide) (by decide) (by decide)
  exact h
